import Mathlib

/-!
Verification of the chat-streaming and conversation-lifecycle engine of the
`find-me-a-job` frontend.

The development shallowly embeds the relevant TypeScript source:

* the inline server-sent-event decoding loop of the `Chat` component
  (`handleSubmit`, `isControlToken`), operating on text fragments;
* the `useChat` hook (`onSubmit`, `handleDeleteAgent`) driving one exchange:
  optimistic message insertion, token accumulation, promotion of a temporary
  thread key to the server-assigned thread id, abort/error finalization;
* the `streamChat` service's HTTP error-message construction.

JavaScript strings are modelled as `List Char` (the decoding splits only at
ASCII characters, so UTF-16 vs. codepoint indexing differences are
unobservable here).  Message `id` and `created_at` fields are opaque values
produced by `crypto.randomUUID()` / `Date` and are never inspected by the
code under verification, so messages are modelled by their `role` and
`content` fields only.
-/

set_option autoImplicit false

/-- JavaScript strings, modelled as lists of characters. -/
abbrev Str := List Char

/-- Message roles (the source uses string literals `'user' | 'assistant' | 'system'`). -/
inductive Role where
  | user
  | assistant
  | system
deriving DecidableEq

/-- A chat message as far as the streaming engine observes it: `role` and
`content`.  (`id`/`created_at` are opaque environment-generated metadata.) -/
structure Message where
  role : Role
  content : Str
deriving DecidableEq

/-- The sentinel control token `"[DONE]"`. -/
def doneTok : Str := "[DONE]".data

/-- The event line marker `"data: "`. -/
def dataMarker : Str := "data: ".data

/-- The literal suffix appended on abort: `"\n\n(Request stopped)"`. -/
def stopSuffix : Str := "\n\n(Request stopped)".data

/-- `isControlToken` from the `Chat` component: exact string equality with
`"[DONE]"`. -/
def isControlToken (d : Str) : Bool := decide (d = doneTok)

/-- `chunk.replace(/\r/g, '')`: normalize line endings by removing every
carriage return. -/
def removeCR (s : Str) : Str := s.filter (fun ch => decide (ch ≠ '\r'))

/-- `s.split('\n')`: split a string at every occurrence of character `c`. -/
def splitOnChar (c : Char) : Str → List Str
  | [] => [[]]
  | d :: rest =>
      if d = c then [] :: splitOnChar c rest
      else
        match splitOnChar c rest with
        | r :: rs => (d :: r) :: rs
        | [] => [[d]]

/-- `parts.join(sep)`: interleave the separator between the parts. -/
def joinSep (sep : Str) : List Str → Str
  | [] => []
  | [x] => x
  | x :: y :: rest => x ++ sep ++ joinSep sep (y :: rest)

/-- Splitting the buffer at every (non-overlapping, leftmost-first) occurrence
of the event separator `"\n\n"`, exactly as the loop
`while ((i = buffer.indexOf('\n\n')) !== -1) { event = buffer.substring(0, i);
buffer = buffer.substring(i + 2); … }` partitions the buffer: the last element
of the result is the leftover buffer with no further separator. -/
def splitOnNN : Str → List Str
  | [] => [[]]
  | [c] => [[c]]
  | c :: d :: rest =>
      if c = '\n' && d = '\n' then [] :: splitOnNN rest
      else
        match splitOnNN (d :: rest) with
        | r :: rs => (c :: r) :: rs
        | [] => [[c]]

/-- `pat` is an initial run of `s` (models `line.startsWith(pat)`). -/
def leadingIs : Str → Str → Bool
  | [], _ => true
  | _ :: _, [] => false
  | p :: ps, c :: cs => p = c && leadingIs ps cs

/-- Payload reconstruction for one event, from the `Chat` component:
`eventText.split('\n').filter(l => l.startsWith('data: ')).map(l => l.slice(6)).join('\n')`. -/
def extractData (eventText : Str) : Str :=
  joinSep ['\n']
    (((splitOnChar '\n' eventText).filter (fun l => leadingIs dataMarker l)).map
      (fun l => l.drop 6))

/-- The `setMessages` update in the stream loop of the `Chat` component:
append `data` to the content of the last message in the list. -/
def appendToLast : List Message → Str → List Message
  | [], _ => []
  | [m], d => [{ m with content := m.content ++ d }]
  | m :: m2 :: rest, d => m :: appendToLast (m2 :: rest) d

/-- The inner event-processing loop of `handleSubmit`, acting on the buffer
already split at `"\n\n"` (the final list element is the leftover buffer).
Empty events are skipped (`if (!eventText) continue`), the control token
stops processing via `break` — returning the *remaining* buffered events
unprocessed — and non-empty payloads are appended to the last message. -/
def innerLoopAux : List Str → List Message → List Str × List Message
  | [], msgs => ([], msgs)
  | [rest], msgs => ([rest], msgs)
  | e :: next :: rest, msgs =>
      if e = [] then innerLoopAux (next :: rest) msgs
      else
        let d := extractData e
        if isControlToken d then (next :: rest, msgs)
        else if d = [] then innerLoopAux (next :: rest) msgs
        else innerLoopAux (next :: rest) (appendToLast msgs d)

/-- The outer read loop of `handleSubmit`: for each arriving fragment, strip
carriage returns, append to the buffer, and run the inner event loop.  When
the source reports end-of-stream (`done`), the leftover buffer is dropped.
Note that the `break` on `[DONE]` only exits the inner loop: the outer loop
keeps reading further fragments with the leftover buffer intact. -/
def streamLoop : List Str → Str → List Message → List Message
  | [], _, msgs => msgs
  | f :: rest, buffer, msgs =>
      let p := innerLoopAux (splitOnNN (buffer ++ removeCR f)) msgs
      streamLoop rest (joinSep ['\n', '\n'] p.1) p.2

/-- The streaming part of `handleSubmit` (happy path, response OK): optimistic
insertion of the user message and the empty assistant placeholder, followed by
the stream read loop over the arriving fragments. -/
def handleSubmitStream (prev : List Message) (userInput : Str) (fragments : List Str) :
    List Message :=
  streamLoop fragments [] (prev ++ [⟨Role.user, userInput⟩, ⟨Role.assistant, []⟩])

/-- Specification-side encoder: the wire form of one event whose decoded
payload is exactly `p` — each line of `p` carries the `data: ` marker, lines
are separated by `'\n'`, and the event is closed by the blank-line delimiter.
Used to quantify over "decoded payload sequences". -/
def bodyOf (p : Str) : Str :=
  joinSep ['\n'] ((splitOnChar '\n' p).map (fun l => dataMarker ++ l))

/-- One full wire event for payload `p` (body followed by the `"\n\n"` delimiter). -/
def encodeEvent (p : Str) : Str := bodyOf p ++ ['\n', '\n']

/-- Proof-side well-formedness of an event body placed before a `"\n\n"`
delimiter: the body contains no two consecutive newlines and does not end in a
newline, so the delimiter in `body ++ "\n\n"` is the leftmost one. -/
def okBody : Str → Bool
  | [] => true
  | [c] => decide (c ≠ '\n')
  | c :: d :: rest => !(c = '\n' && d = '\n') && okBody (d :: rest)

/-! ## The `useChat` hook (`onSubmit`, `handleDeleteAgent`) and `streamChat` -/

/-- An agent persona (`{id, name}`; only these fields are read by the engine). -/
structure Agent where
  id : Nat
  name : Str
deriving DecidableEq

/-- Conversation metadata (`{id, agent_id, thread_id, …}`; the timestamps are
opaque strings never inspected by the engine). -/
structure Conversation where
  id : Nat
  agent_id : Nat
  thread_id : Str
deriving DecidableEq

/-- The state held by the `useChat` hook. -/
structure ChatState where
  agents : List Agent
  activeAgentId : Option Nat
  conversations : List Conversation
  activeThreadId : Option Str
  messagesByConversation : List (Str × List Message)
  input : Str
  isLoading : Bool
  isStreaming : Bool
deriving DecidableEq

/-- The `POST /chat` request body built by `streamChat`
(`{message, agent_id, thread_id?}`). -/
structure ChatRequest where
  message : Str
  agent_id : Nat
  thread_id : Option Str
deriving DecidableEq

/-- Terminal outcome of one exchange, as observed by `onSubmit`'s
`try`/`catch`: `streamChat` resolved with the (possibly absent) `X-Thread-ID`
header value, or it threw an `AbortError`, or it threw any other error with
the given message. -/
inductive StreamResult where
  | success (threadId : Option Str)
  | aborted
  | failed (message : Str)
deriving DecidableEq

/-- JavaScript truthiness of a `string | null` value (`null` and `''` are falsy). -/
def strTruthy : Option Str → Bool
  | none => false
  | some s => decide (s ≠ [])

/-- `o || alt` on a `string | null` value. -/
def jsOrKey (o : Option Str) (alt : Str) : Str :=
  match o with
  | none => alt
  | some s => if s = [] then alt else s

/-- JavaScript truthiness of a `number | null` value (`null` and `0` are falsy). -/
def agentTruthy : Option Nat → Bool
  | none => false
  | some n => decide (n ≠ 0)

/-- `m || alt` on strings (`''` is falsy). -/
def jsOrStr (m alt : Str) : Str := if m = [] then alt else m

/-- Lookup in the `messagesByConversation` record (modelled as an association
list; JavaScript object keys are unique). -/
def lookupKey : List (Str × List Message) → Str → Option (List Message)
  | [], _ => none
  | kv :: rest, k => if kv.1 = k then some kv.2 else lookupKey rest k

/-- `{...prev, [k]: v}`: replace the binding of `k`, or add it if absent. -/
def setKey : List (Str × List Message) → Str → List Message → List (Str × List Message)
  | [], k, v => [(k, v)]
  | kv :: rest, k, v => if kv.1 = k then (k, v) :: rest else kv :: setKey rest k v

/-- `delete obj[k]`: remove the binding of `k`. -/
def eraseKey (m : List (Str × List Message)) (k : Str) : List (Str × List Message) :=
  m.filter (fun kv => decide (kv.1 ≠ k))

/-- Helper for the `onToken` callback: walking a (reversed) message list,
append `tok` to the first assistant message found. -/
def appendFirstAssistant : List Message → Str → List Message
  | [], _ => []
  | m :: rest, tok =>
      if m.role = Role.assistant then { m with content := m.content ++ tok } :: rest
      else m :: appendFirstAssistant rest tok

/-- The `onToken` callback's array update (`useChat.onSubmit`, scanning from
the end for the last assistant message and appending the token). -/
def appendAssistantFromEnd (msgs : List Message) (tok : Str) : List Message :=
  (appendFirstAssistant msgs.reverse tok).reverse

/-- The `onToken` callback: update the (temporary) thread's message list. -/
def onTokenUpdate (m : List (Str × List Message)) (k : Str) (tok : Str) :
    List (Str × List Message) :=
  setKey m k (appendAssistantFromEnd ((lookupKey m k).getD []) tok)

/-- The `AbortError` branch: append the stop marker to the last message of the
list, provided it exists and is an assistant message. -/
def abortUpdate : List Message → List Message
  | [] => []
  | [m] =>
      if m.role = Role.assistant then [{ m with content := m.content ++ stopSuffix }]
      else [m]
  | m :: m2 :: rest => m :: abortUpdate (m2 :: rest)

/-- The generic error branch: replace the content of the last message of the
list with the error message, provided it exists and is an assistant message. -/
def errorUpdate : List Message → Str → List Message
  | [], _ => []
  | [m], msg =>
      if m.role = Role.assistant then [{ m with content := msg }] else [m]
  | m :: m2 :: rest, msg => m :: errorUpdate (m2 :: rest) msg

/-- The submission guard of `useChat.onSubmit`:
`if (!input.trim() || isLoading || activeAgentId == null) return`. -/
def isSpaceChar (c : Char) : Bool := c = ' ' || c = '\t' || c = '\n' || c = '\r'

/-- `input.trim()` (JavaScript trims further exotic Unicode space characters,
none of which occur in the verified properties). -/
def trimStr (s : Str) : Str :=
  ((s.dropWhile isSpaceChar).reverse.dropWhile isSpaceChar).reverse

/-- `!input.trim() || isLoading || activeAgentId == null`. -/
def guardBlocked (st : ChatState) : Bool :=
  decide (trimStr st.input = []) || st.isLoading || st.activeAgentId.isNone

/-- The decimal rendering of an HTTP status code. -/
def statusStr (status : Nat) : Str := (Nat.repr status).data

/-- The error message thrown by `streamChat` for a non-2xx response:
`new Error(err.detail || `HTTP ${response.status}`)`, where `err` is the
parsed JSON body (or `{}` when the body fails to parse).  `detail = none`
covers both an absent field and an unparsable body. -/
def httpErrorMessage (detail : Option Str) (status : Nat) : Str :=
  match detail with
  | some d => if d = [] then "HTTP ".data ++ statusStr status else d
  | none => "HTTP ".data ++ statusStr status

/-- One complete run of `useChat.onSubmit`, as a state transition.

The inputs abstract the environment: `tempName` is the freshly generated
`temp-${Date.now()}` key (used only when the active thread id is falsy),
`tokens` is the sequence of decoded payloads delivered to `onToken` before the
terminal event, `result` the terminal outcome of `streamChat`, and
`refreshed` the result of the `getConversations` refresh issued after a
promotion (`none` models that refresh call failing).

The transition mirrors the source line by line: guard; optimistic insertion
of the user message and empty assistant placeholder under
`tempThreadId = currentThreadId || temp key`; `setInput('')`; one
`onToken` update per delivered payload; then the `try`/`catch` tail
(promotion when `result.threadId && !currentThreadId`, abort suffix, or
error replacement); finally the loading/streaming flags are cleared. -/
def onSubmitModel (st : ChatState) (tempName : Str) (tokens : List Str)
    (result : StreamResult) (refreshed : Option (List Conversation)) : ChatState :=
  if guardBlocked st then st
  else
    let currentThreadId := st.activeThreadId
    let tempKey := jsOrKey currentThreadId tempName
    let m1 := setKey st.messagesByConversation tempKey
      (((lookupKey st.messagesByConversation tempKey).getD []) ++
        [⟨Role.user, st.input⟩, ⟨Role.assistant, []⟩])
    let m2 := tokens.foldl (fun mm tok => onTokenUpdate mm tempKey tok) m1
    let st1 := { st with input := [], isLoading := false, isStreaming := false }
    match result with
    | StreamResult.success tid =>
        if strTruthy tid && !strTruthy currentThreadId then
          let realKey := tid.getD []
          { st1 with
              activeThreadId := tid,
              messagesByConversation :=
                eraseKey (setKey m2 realKey ((lookupKey m2 tempKey).getD [])) tempKey,
              conversations :=
                if agentTruthy st.activeAgentId then refreshed.getD st.conversations
                else st.conversations }
        else { st1 with messagesByConversation := m2 }
    | StreamResult.aborted =>
        let marr := setKey m2 tempKey (abortUpdate ((lookupKey m2 tempKey).getD []))
        { st1 with messagesByConversation := marr }
    | StreamResult.failed msg =>
        let marr := setKey m2 tempKey (errorUpdate ((lookupKey m2 tempKey).getD [])
          (jsOrStr msg "Unknown error".data))
        { st1 with messagesByConversation := marr }

/-- The request `onSubmit` issues through `streamChat` (`none` when the guard
makes the submission a silent no-op): body `{message, agent_id, thread_id?}`
with `thread_id` present only when the active thread id is truthy. -/
def onSubmitRequest (st : ChatState) : Option ChatRequest :=
  if guardBlocked st then none
  else some
    { message := st.input,
      agent_id := st.activeAgentId.getD 0,
      thread_id := if strTruthy st.activeThreadId then st.activeThreadId else none }

/-- The sequence of `messagesByConversation` values an observer can see during
one run of `onSubmit`: the state after the optimistic insertion, after each
`onToken` update, and after the terminal update (promotion is the single
functional `setMessagesByConversation` update that inserts the real key and
deletes the temporary key).  Empty when the guard blocks the submission. -/
def onSubmitMapTrace (st : ChatState) (tempName : Str) (tokens : List Str)
    (result : StreamResult) : List (List (Str × List Message)) :=
  if guardBlocked st then []
  else
    let currentThreadId := st.activeThreadId
    let tempKey := jsOrKey currentThreadId tempName
    let m1 := setKey st.messagesByConversation tempKey
      (((lookupKey st.messagesByConversation tempKey).getD []) ++
        [⟨Role.user, st.input⟩, ⟨Role.assistant, []⟩])
    let sc := tokens.scanl (fun mm tok => onTokenUpdate mm tempKey tok) m1
    let m2 := tokens.foldl (fun mm tok => onTokenUpdate mm tempKey tok) m1
    sc ++
      (match result with
        | StreamResult.success tid =>
            if strTruthy tid && !strTruthy currentThreadId then
              [eraseKey (setKey m2 (tid.getD []) ((lookupKey m2 tempKey).getD [])) tempKey]
            else []
        | StreamResult.aborted =>
            [setKey m2 tempKey (abortUpdate ((lookupKey m2 tempKey).getD []))]
        | StreamResult.failed msg =>
            [setKey m2 tempKey (errorUpdate ((lookupKey m2 tempKey).getD [])
              (jsOrStr msg "Unknown error".data))])

/-- `useChat.handleDeleteAgent`: filter the agent out of the agent list, drop
its conversations and their message lists, and — when the deleted agent was
active — reset the active thread and move the active-agent pointer to the
first remaining agent in original list order (or `null` if none remain).
The source filters the agent list a second time inside the functional
`setAgents` update; that second filter is kept (it is idempotent). -/
def handleDeleteAgent (st : ChatState) (agentId : Nat) : ChatState :=
  let agents1 := st.agents.filter (fun a => decide (a.id ≠ agentId))
  let convs1 := st.conversations.filter (fun c => decide (c.agent_id ≠ agentId))
  let msgs1 := st.conversations.foldl
    (fun m c => if c.agent_id = agentId then eraseKey m c.thread_id else m)
    st.messagesByConversation
  if st.activeAgentId = some agentId then
    let remaining := agents1.filter (fun a => decide (a.id ≠ agentId))
    { st with
        agents := remaining,
        conversations := convs1,
        messagesByConversation := msgs1,
        activeThreadId := none,
        activeAgentId := remaining.head?.map (fun a => a.id) }
  else
    { st with agents := agents1, conversations := convs1, messagesByConversation := msgs1 }

/-- A small concrete state used to instantiate the claim theorems: one agent
(id 1, active), no conversations, no active thread, one unrelated
conversation entry under key `"other"`, and pending input `"Hi"`. -/
def sampleState : ChatState :=
  { agents := [⟨1, "A".data⟩],
    activeAgentId := some 1,
    conversations := [],
    activeThreadId := none,
    messagesByConversation := [("other".data, [⟨Role.user, "old".data⟩])],
    input := "Hi".data,
    isLoading := false,
    isStreaming := false }

/-! ## Association-list and message-update lemmas -/

theorem lookupKey_setKey_self (m : List (Str × List Message)) (k : Str) (v : List Message) :
    lookupKey (setKey m k v) k = some v := by
  induction m with
  | nil => simp [setKey, lookupKey]
  | cons kv rest ih =>
      by_cases h : kv.1 = k
      · simp [setKey, lookupKey, h]
      · simp only [setKey, if_neg h, lookupKey]
        exact ih

theorem lookupKey_setKey_ne (m : List (Str × List Message)) (k : Str) (v : List Message)
    (j : Str) (h : j ≠ k) : lookupKey (setKey m k v) j = lookupKey m j := by
  induction m with
  | nil =>
      simp only [setKey, lookupKey]
      rw [if_neg (fun h2 : k = j => h h2.symm)]
  | cons kv rest ih =>
      by_cases h1 : kv.1 = k
      · simp only [setKey, if_pos h1, lookupKey]
        rw [if_neg (fun h2 : k = j => h h2.symm), if_neg (fun h2 : kv.1 = j => h (h1 ▸ h2).symm)]
      · simp only [setKey, if_neg h1, lookupKey]
        by_cases h2 : kv.1 = j
        · rw [if_pos h2, if_pos h2]
        · rw [if_neg h2, if_neg h2]
          exact ih

theorem lookupKey_eraseKey_self (m : List (Str × List Message)) (k : Str) :
    lookupKey (eraseKey m k) k = none := by
  induction m with
  | nil => simp [eraseKey, lookupKey]
  | cons kv rest ih =>
      by_cases h : kv.1 = k
      · simpa [eraseKey, List.filter_cons, h] using ih
      · simp only [eraseKey, List.filter_cons] at ih ⊢
        rw [if_pos (by simpa using h)]
        simp only [lookupKey, if_neg h]
        exact ih

theorem lookupKey_eraseKey_ne (m : List (Str × List Message)) (k j : Str) (h : j ≠ k) :
    lookupKey (eraseKey m k) j = lookupKey m j := by
  induction m with
  | nil => simp [eraseKey, lookupKey]
  | cons kv rest ih =>
      by_cases h1 : kv.1 = k
      · simp only [eraseKey, List.filter_cons] at ih ⊢
        rw [if_neg (by simpa using h1)]
        rw [ih]
        simp only [lookupKey]
        have hj : ¬kv.1 = j := by
          intro h2
          exact h (by rw [← h2, h1])
        rw [if_neg hj]
      · simp only [eraseKey, List.filter_cons] at ih ⊢
        rw [if_pos (by simpa using h1)]
        simp only [lookupKey]
        by_cases h2 : kv.1 = j
        · rw [if_pos h2, if_pos h2]
        · rw [if_neg h2, if_neg h2]
          exact ih

theorem appendAssistantFromEnd_snoc (xs : List Message) (c tok : Str) :
    appendAssistantFromEnd (xs ++ [⟨Role.assistant, c⟩]) tok =
      xs ++ [⟨Role.assistant, c ++ tok⟩] := by
  unfold appendAssistantFromEnd
  rw [List.reverse_append]
  simp only [List.reverse_cons, List.reverse_nil, List.nil_append, List.singleton_append]
  simp only [appendFirstAssistant, if_pos rfl]
  simp

theorem lookupKey_onTokenUpdate_ne (m : List (Str × List Message)) (k tok : Str) (j : Str)
    (h : j ≠ k) : lookupKey (onTokenUpdate m k tok) j = lookupKey m j := by
  unfold onTokenUpdate
  exact lookupKey_setKey_ne m k _ j h

theorem lookupKey_onTokenUpdate_self (m : List (Str × List Message)) (k tok : Str)
    (xs : List Message) (c : Str) (h : lookupKey m k = some (xs ++ [⟨Role.assistant, c⟩])) :
    lookupKey (onTokenUpdate m k tok) k = some (xs ++ [⟨Role.assistant, c ++ tok⟩]) := by
  unfold onTokenUpdate
  rw [lookupKey_setKey_self, h]
  simp [appendAssistantFromEnd_snoc]

theorem foldl_onTokenUpdate_self : ∀ (tokens : List Str) (m : List (Str × List Message))
    (k : Str) (xs : List Message) (c : Str),
    lookupKey m k = some (xs ++ [⟨Role.assistant, c⟩]) →
    lookupKey (tokens.foldl (fun mm tok => onTokenUpdate mm k tok) m) k =
      some (xs ++ [⟨Role.assistant, c ++ tokens.flatten⟩])
  | [], m, k, xs, c, h => by simpa using h
  | tok :: toks, m, k, xs, c, h => by
      simp only [List.foldl_cons]
      have h1 := lookupKey_onTokenUpdate_self m k tok xs c h
      have h2 := foldl_onTokenUpdate_self toks (onTokenUpdate m k tok) k xs (c ++ tok) h1
      rw [h2]
      simp [List.append_assoc]

theorem foldl_onTokenUpdate_ne : ∀ (tokens : List Str) (m : List (Str × List Message))
    (k j : Str), j ≠ k →
    lookupKey (tokens.foldl (fun mm tok => onTokenUpdate mm k tok) m) j = lookupKey m j
  | [], m, k, j, h => rfl
  | tok :: toks, m, k, j, h => by
      simp only [List.foldl_cons]
      rw [foldl_onTokenUpdate_ne toks _ k j h]
      exact lookupKey_onTokenUpdate_ne m k tok j h

theorem appendToLast_snoc : ∀ (xs : List Message) (m : Message) (d : Str),
    appendToLast (xs ++ [m]) d = xs ++ [{ m with content := m.content ++ d }]
  | [], m, d => by simp [appendToLast]
  | [x], m, d => by simp [appendToLast]
  | x :: y :: t, m, d => by
      have ih := appendToLast_snoc (y :: t) m d
      simp only [List.cons_append] at ih ⊢
      simp only [appendToLast]
      rw [ih]

theorem abortUpdate_snoc : ∀ (xs : List Message) (c : Str),
    abortUpdate (xs ++ [⟨Role.assistant, c⟩]) = xs ++ [⟨Role.assistant, c ++ stopSuffix⟩]
  | [], c => by simp [abortUpdate]
  | [x], c => by simp [abortUpdate]
  | x :: y :: t, c => by
      have ih := abortUpdate_snoc (y :: t) c
      simp only [List.cons_append] at ih ⊢
      simp only [abortUpdate]
      rw [ih]

theorem errorUpdate_snoc : ∀ (xs : List Message) (c msg : Str),
    errorUpdate (xs ++ [⟨Role.assistant, c⟩]) msg = xs ++ [⟨Role.assistant, msg⟩]
  | [], c, msg => by simp [errorUpdate]
  | [x], c, msg => by simp [errorUpdate]
  | x :: y :: t, c, msg => by
      have ih := errorUpdate_snoc (y :: t) c msg
      simp only [List.cons_append] at ih ⊢
      simp only [errorUpdate]
      rw [ih]

/-! ## Split/join lemmas for the event decoder -/

theorem splitOnChar_ne_nil (c : Char) (s : Str) : splitOnChar c s ≠ [] := by
  induction s with
  | nil => simp [splitOnChar]
  | cons d rest ih =>
      by_cases h : d = c
      · simp [splitOnChar, h]
      · simp only [splitOnChar, if_neg h]
        rcases hs : splitOnChar c rest with _ | ⟨r, rs⟩
        · simp
        · simp

theorem not_mem_splitOnChar (c : Char) (s : Str) :
    ∀ l ∈ splitOnChar c s, c ∉ l := by
  induction s with
  | nil =>
      intro l hl
      simp [splitOnChar] at hl
      simp [hl]
  | cons d rest ih =>
      intro l hl
      by_cases h : d = c
      · simp only [splitOnChar, if_pos h, List.mem_cons] at hl
        rcases hl with hl | hl
        · simp [hl]
        · exact ih l hl
      · simp only [splitOnChar, if_neg h] at hl
        rcases hs : splitOnChar c rest with _ | ⟨r, rs⟩
        · exact absurd hs (splitOnChar_ne_nil c rest)
        · rw [hs] at hl
          simp only [List.mem_cons] at hl
          rcases hl with hl | hl
          · subst hl
            intro hmem
            rcases List.mem_cons.mp hmem with h1 | h1
            · exact h h1.symm
            · exact ih r (by rw [hs]; exact List.mem_cons_self r rs) h1
          · exact ih l (by rw [hs]; exact List.mem_cons_of_mem r hl)

theorem mem_of_mem_splitOnChar (c : Char) (s : Str) :
    ∀ l ∈ splitOnChar c s, ∀ x ∈ l, x ∈ s := by
  induction s with
  | nil =>
      intro l hl x hx
      simp [splitOnChar] at hl
      subst hl
      simp at hx
  | cons d rest ih =>
      intro l hl x hx
      by_cases h : d = c
      · simp only [splitOnChar, if_pos h, List.mem_cons] at hl
        rcases hl with hl | hl
        · subst hl; simp at hx
        · exact List.mem_cons_of_mem d (ih l hl x hx)
      · simp only [splitOnChar, if_neg h] at hl
        rcases hs : splitOnChar c rest with _ | ⟨r, rs⟩
        · exact absurd hs (splitOnChar_ne_nil c rest)
        · rw [hs] at hl
          simp only [List.mem_cons] at hl
          rcases hl with hl | hl
          · subst hl
            rcases List.mem_cons.mp hx with h1 | h1
            · simp [h1]
            · exact List.mem_cons_of_mem d
                (ih r (by rw [hs]; exact List.mem_cons_self r rs) x h1)
          · exact List.mem_cons_of_mem d
              (ih l (by rw [hs]; exact List.mem_cons_of_mem r hl) x hx)

theorem joinSep_cons_cons (sep : Str) (d : Char) (r : Str) (rs : List Str) :
    joinSep sep ((d :: r) :: rs) = d :: joinSep sep (r :: rs) := by
  cases rs with
  | nil => simp [joinSep]
  | cons y t => simp [joinSep, List.cons_append]

theorem joinSep_splitOnChar (c : Char) (s : Str) :
    joinSep [c] (splitOnChar c s) = s := by
  induction s with
  | nil => simp [splitOnChar, joinSep]
  | cons d rest ih =>
      by_cases h : d = c
      · simp only [splitOnChar, if_pos h]
        rcases hs : splitOnChar c rest with _ | ⟨r, rs⟩
        · exact absurd hs (splitOnChar_ne_nil c rest)
        · rw [hs] at ih
          simp only [joinSep, List.nil_append, List.singleton_append]
          rw [ih, h]
      · simp only [splitOnChar, if_neg h]
        rcases hs : splitOnChar c rest with _ | ⟨r, rs⟩
        · exact absurd hs (splitOnChar_ne_nil c rest)
        · rw [hs] at ih
          rw [joinSep_cons_cons, ih]

theorem splitOnChar_of_not_mem (c : Char) (s : Str) (h : c ∉ s) :
    splitOnChar c s = [s] := by
  induction s with
  | nil => simp [splitOnChar]
  | cons d rest ih =>
      have hd : ¬d = c := fun h1 => h (by simp [h1])
      have hrest : c ∉ rest := fun h1 => h (List.mem_cons_of_mem d h1)
      simp only [splitOnChar, if_neg hd]
      rw [ih hrest]

theorem splitOnChar_append_cons (c : Char) (x t : Str) (h : c ∉ x) :
    splitOnChar c (x ++ c :: t) = x :: splitOnChar c t := by
  induction x with
  | nil => simp [splitOnChar]
  | cons d rest ih =>
      have hd : ¬d = c := fun h1 => h (by simp [h1])
      have hrest : c ∉ rest := fun h1 => h (List.mem_cons_of_mem d h1)
      simp only [List.cons_append, splitOnChar, if_neg hd]
      simp only [List.append_eq]
      rw [ih hrest]

theorem splitOnChar_joinSep (c : Char) :
    ∀ (L : List Str), L ≠ [] → (∀ l ∈ L, c ∉ l) →
      splitOnChar c (joinSep [c] L) = L
  | [], h, _ => absurd rfl h
  | [x], _, hf => by
      simp only [joinSep]
      exact splitOnChar_of_not_mem c x (hf x (by simp))
  | x :: y :: t, _, hf => by
      have hx : c ∉ x := hf x (by simp)
      have ih := splitOnChar_joinSep c (y :: t) (by simp)
        (fun l hl => hf l (List.mem_cons_of_mem x hl))
      simp only [joinSep]
      rw [List.append_assoc, List.singleton_append]
      rw [splitOnChar_append_cons c x _ hx, ih]

theorem leadingIs_append (p l : Str) : leadingIs p (p ++ l) = true := by
  induction p with
  | nil => simp [leadingIs]
  | cons a ps ih => simp [leadingIs, ih]

theorem drop_dataMarker (l : Str) : (dataMarker ++ l).drop 6 = l := by
  have h : dataMarker.length = 6 := rfl
  rw [← h, List.drop_left]

theorem extractData_bodyOf (p : Str) : extractData (bodyOf p) = p := by
  have hfree : ∀ l ∈ splitOnChar '\n' p, '\n' ∉ l := not_mem_splitOnChar '\n' p
  have hmapfree : ∀ l ∈ (splitOnChar '\n' p).map (fun l => dataMarker ++ l), '\n' ∉ l := by
    intro l hl
    rcases List.mem_map.mp hl with ⟨l0, hl0, rfl⟩
    intro hmem
    rcases List.mem_append.mp hmem with h1 | h1
    · revert h1; decide
    · exact hfree l0 hl0 h1
  have hmapne : (splitOnChar '\n' p).map (fun l => dataMarker ++ l) ≠ [] := by
    simp [splitOnChar_ne_nil]
  unfold extractData bodyOf
  rw [splitOnChar_joinSep '\n' _ hmapne hmapfree]
  have hfilter : ((splitOnChar '\n' p).map (fun l => dataMarker ++ l)).filter
      (fun l => leadingIs dataMarker l) = (splitOnChar '\n' p).map (fun l => dataMarker ++ l) := by
    apply List.filter_eq_self.mpr
    intro a ha
    rcases List.mem_map.mp ha with ⟨l0, _, rfl⟩
    exact leadingIs_append dataMarker l0
  rw [hfilter, List.map_map]
  have hdrop : ((fun l => l.drop 6) ∘ fun l => dataMarker ++ l) = (id : Str → Str) := by
    funext l
    exact drop_dataMarker l
  rw [hdrop, List.map_id]
  exact joinSep_splitOnChar '\n' p

theorem okBody_of_not_mem_nl : ∀ (x : Str), '\n' ∉ x → okBody x = true
  | [], _ => rfl
  | [c], h => by
      simp only [okBody, decide_eq_true_eq]
      intro h1
      exact h (by simp [h1])
  | c :: d :: t, h => by
      have hc : ¬c = '\n' := fun h1 => h (by simp [h1])
      have ht : '\n' ∉ d :: t := fun h1 => h (List.mem_cons_of_mem c h1)
      simp only [okBody, Bool.and_eq_true, Bool.not_eq_true']
      constructor
      · simp [hc]
      · exact okBody_of_not_mem_nl (d :: t) ht

theorem okBody_glue : ∀ (x z : Str), '\n' ∉ x →
    (∃ e z', z = e :: z' ∧ e ≠ '\n') → okBody z = true →
    okBody (x ++ '\n' :: z) = true
  | [], z, _, ⟨e, z', hz, he⟩, hok => by
      subst hz
      simp only [List.nil_append, okBody, Bool.and_eq_true, Bool.not_eq_true']
      constructor
      · simp [he]
      · exact hok
  | [c], z, hx, hz, hok => by
      have hc : ¬c = '\n' := fun h1 => hx (by simp [h1])
      have h0 := okBody_glue [] z (by simp) hz hok
      simp only [List.nil_append] at h0
      simp only [List.cons_append, List.nil_append, okBody, Bool.and_eq_true,
        Bool.not_eq_true']
      constructor
      · simp [hc]
      · exact h0
  | c :: d :: t, z, hx, hz, hok => by
      have hc : ¬c = '\n' := fun h1 => hx (by simp [h1])
      have hd : ¬d = '\n' := fun h1 => hx (by simp [h1])
      have ht : '\n' ∉ d :: t := fun h1 => hx (List.mem_cons_of_mem c h1)
      have ih := okBody_glue (d :: t) z ht hz hok
      simp only [List.cons_append] at ih ⊢
      simp only [okBody, Bool.and_eq_true, Bool.not_eq_true']
      constructor
      · simp [hc]
      · exact ih

theorem okBody_joinSep_lines : ∀ (L : List Str),
    (∀ l ∈ L, '\n' ∉ l) → (∀ l ∈ L, ∃ c t, l = c :: t ∧ c ≠ '\n') →
    okBody (joinSep ['\n'] L) = true
  | [], _, _ => rfl
  | [x], hf, _ => by
      simp only [joinSep]
      exact okBody_of_not_mem_nl x (hf x (by simp))
  | x :: y :: t, hf, hh => by
      have hx : '\n' ∉ x := hf x (by simp)
      have ih := okBody_joinSep_lines (y :: t)
        (fun l hl => hf l (List.mem_cons_of_mem x hl))
        (fun l hl => hh l (List.mem_cons_of_mem x hl))
      rcases hh y (by simp) with ⟨c, t', hy, hc⟩
      have hhead : ∃ e z', joinSep ['\n'] (y :: t) = e :: z' ∧ e ≠ '\n' := by
        subst hy
        exact ⟨c, joinSep ['\n'] (t' :: t), joinSep_cons_cons ['\n'] c t' t, hc⟩
      simp only [joinSep]
      rw [List.append_assoc, List.singleton_append]
      exact okBody_glue x _ hx hhead ih

theorem okBody_bodyOf (p : Str) : okBody (bodyOf p) = true := by
  unfold bodyOf
  apply okBody_joinSep_lines
  · intro l hl
    rcases List.mem_map.mp hl with ⟨l0, hl0, rfl⟩
    intro hmem
    rcases List.mem_append.mp hmem with h1 | h1
    · revert h1; decide
    · exact not_mem_splitOnChar '\n' p l0 hl0 h1
  · intro l hl
    rcases List.mem_map.mp hl with ⟨l0, _, rfl⟩
    exact ⟨'d', "ata: ".data ++ l0, rfl, by decide⟩

theorem splitOnNN_ne_nil : ∀ (s : Str), splitOnNN s ≠ []
  | [] => by simp [splitOnNN]
  | [c] => by simp [splitOnNN]
  | c :: d :: rest => by
      simp only [splitOnNN]
      by_cases h : c = '\n' && d = '\n'
      · simp [h]
      · rw [if_neg (by simpa using h)]
        rcases hs : splitOnNN (d :: rest) with _ | ⟨r, rs⟩
        · exact absurd hs (splitOnNN_ne_nil (d :: rest))
        · simp

theorem splitOnNN_okBody_append : ∀ (x : Str), okBody x = true →
    ∀ (r : Str), splitOnNN (x ++ '\n' :: '\n' :: r) = x :: splitOnNN r
  | [], _, r => by
      simp [splitOnNN]
  | [c], h, r => by
      have hc : ¬c = '\n' := by
        simpa [okBody, decide_eq_true_eq] using h
      simp only [List.cons_append, List.nil_append, splitOnNN]
      rw [if_neg (by simp [hc])]
      simp
  | c :: d :: t, h, r => by
      simp only [okBody, Bool.and_eq_true, Bool.not_eq_true'] at h
      have hpair : (c = '\n' && d = '\n') = false := h.1
      have ih := splitOnNN_okBody_append (d :: t) h.2 r
      simp only [List.cons_append] at ih ⊢
      simp only [splitOnNN]
      rw [if_neg (by simp [hpair])]
      rw [ih]

theorem mem_joinSep : ∀ (sep : Str) (L : List Str) (x : Char), x ∈ joinSep sep L →
    x ∈ sep ∨ ∃ l ∈ L, x ∈ l
  | _, [], x, h => by simp [joinSep] at h
  | _, [l], x, h => by
      right
      exact ⟨l, by simp, h⟩
  | sep, l :: y :: t, x, h => by
      simp only [joinSep, List.append_assoc, List.mem_append] at h
      rcases h with h | h | h
      · exact Or.inr ⟨l, by simp, h⟩
      · exact Or.inl h
      · rcases mem_joinSep sep (y :: t) x h with h1 | ⟨l', hl', hx⟩
        · exact Or.inl h1
        · exact Or.inr ⟨l', List.mem_cons_of_mem l hl', hx⟩

theorem removeCR_eq_self (s : Str) (h : '\r' ∉ s) : removeCR s = s := by
  apply List.filter_eq_self.mpr
  intro a ha
  simp only [decide_eq_true_eq]
  intro h1
  exact h (h1 ▸ ha)

theorem not_mem_cr_bodyOf (p : Str) (h : '\r' ∉ p) : '\r' ∉ bodyOf p := by
  intro hmem
  rcases mem_joinSep ['\n'] _ '\r' hmem with h1 | ⟨l, hl, hx⟩
  · revert h1; decide
  · rcases List.mem_map.mp hl with ⟨l0, hl0, rfl⟩
    rcases List.mem_append.mp hx with h1 | h1
    · revert h1; decide
    · exact h (mem_of_mem_splitOnChar '\n' p l0 hl0 '\r' h1)

theorem removeCR_encodeEvent (p : Str) (h : '\r' ∉ p) :
    removeCR (encodeEvent p) = encodeEvent p := by
  apply removeCR_eq_self
  intro hmem
  rcases List.mem_append.mp hmem with h1 | h1
  · exact not_mem_cr_bodyOf p h h1
  · revert h1; decide

theorem bodyOf_ne_nil (p : Str) : bodyOf p ≠ [] := by
  unfold bodyOf
  rcases hs : splitOnChar '\n' p with _ | ⟨l0, rest⟩
  · exact absurd hs (splitOnChar_ne_nil '\n' p)
  · simp only [List.map_cons]
    have : dataMarker ++ l0 = 'd' :: ("ata: ".data ++ l0) := rfl
    rw [this, joinSep_cons_cons]
    simp

theorem isControlToken_eq_false (p : Str) (h : p ≠ doneTok) : isControlToken p = false := by
  simp [isControlToken, h]

theorem streamLoop_encode : ∀ (ps : List Str), (∀ p ∈ ps, p ≠ doneTok) →
    (∀ p ∈ ps, '\r' ∉ p) → ∀ (xs : List Message) (m : Message),
    streamLoop (ps.map encodeEvent) [] (xs ++ [m]) =
      xs ++ [{ m with content := m.content ++ ps.flatten }]
  | [], _, _, xs, m => by
      simp [streamLoop]
  | p :: ps', h1, h2, xs, m => by
      have hp1 : p ≠ doneTok := h1 p (by simp)
      have hp2 : '\r' ∉ p := h2 p (by simp)
      have ih := streamLoop_encode ps' (fun q hq => h1 q (List.mem_cons_of_mem p hq))
        (fun q hq => h2 q (List.mem_cons_of_mem p hq))
      simp only [List.map_cons, streamLoop]
      rw [List.nil_append, removeCR_encodeEvent p hp2]
      have hsplit : splitOnNN (encodeEvent p) = [bodyOf p, []] := by
        have := splitOnNN_okBody_append (bodyOf p) (okBody_bodyOf p) []
        simpa [encodeEvent, splitOnNN] using this
      rw [hsplit]
      have hinner : innerLoopAux [bodyOf p, []] (xs ++ [m]) =
          ([[]], if p = [] then xs ++ [m]
                 else appendToLast (xs ++ [m]) p) := by
        simp only [innerLoopAux, if_neg (bodyOf_ne_nil p)]
        rw [extractData_bodyOf p]
        rw [isControlToken_eq_false p hp1]
        by_cases hp : p = []
        · simp [hp, innerLoopAux]
        · simp [hp, innerLoopAux]
      rw [hinner]
      by_cases hp : p = []
      · simp only [if_pos hp]
        have hjoin : joinSep ['\n', '\n'] [([] : Str)] = [] := rfl
        rw [hjoin]
        rw [ih xs m]
        subst hp
        simp
      · simp only [if_neg hp]
        have hjoin : joinSep ['\n', '\n'] [([] : Str)] = [] := rfl
        rw [hjoin]
        rw [appendToLast_snoc]
        rw [ih xs { m with content := m.content ++ p }]
        simp [List.append_assoc]

theorem handleSubmitStream_encode (ps : List Str) (prev : List Message) (q : Str)
    (h1 : ∀ p ∈ ps, p ≠ doneTok) (h2 : ∀ p ∈ ps, '\r' ∉ p) :
    handleSubmitStream prev q (ps.map encodeEvent) =
      prev ++ [⟨Role.user, q⟩, ⟨Role.assistant, ps.flatten⟩] := by
  unfold handleSubmitStream
  have h := streamLoop_encode ps h1 h2 (prev ++ [⟨Role.user, q⟩]) ⟨Role.assistant, []⟩
  simpa using h

/-! ## Claim theorems: the event-stream decoder -/

/-- C2 — Concatenation: for every finite sequence of decoded payloads none of
which equals `[DONE]`, delivered to an exchange that reaches a terminal state
without error or abort, the final content of the assistant message inserted
for that exchange equals the concatenation of the payloads in decode order,
appended to the initially empty placeholder. -/
theorem c2_concatenation (ps : List Str) (prev : List Message) (q : Str)
    (h1 : ∀ p ∈ ps, p ≠ doneTok) (h2 : ∀ p ∈ ps, '\r' ∉ p) :
    handleSubmitStream prev q (ps.map encodeEvent) =
      prev ++ [⟨Role.user, q⟩, ⟨Role.assistant, ps.flatten⟩] :=
  handleSubmitStream_encode ps prev q h1 h2

/-- Witness for C2: payloads `"Hel"`, `"lo"` produce assistant content `"Hello"`. -/
theorem c2_concatenation_witness :
    handleSubmitStream [] "Hi".data (["Hel".data, "lo".data].map encodeEvent) =
      [⟨Role.user, "Hi".data⟩, ⟨Role.assistant, ["Hel".data, "lo".data].flatten⟩] := by
  have h := c2_concatenation ["Hel".data, "lo".data] [] "Hi".data (by decide) (by decide)
  simpa using h

/-- C3 — evaluation of the stream loop at the failing input: after the event
`data: [DONE]` has been decoded, a *later-arriving* fragment `data: b` is still
decoded and appended (the `break` in the source exits only the inner
event-processing loop, not the outer read loop), contradicting the claim that
no event arriving in later fragments is ever emitted after `[DONE]`. -/
theorem c3_sentinel_after_done_eval :
    handleSubmitStream [] "Hi".data ["data: [DONE]\n\n".data, "data: b\n\n".data] =
      [⟨Role.user, "Hi".data⟩, ⟨Role.assistant, "b".data⟩] := by decide

/-- C7 — Multi-line reconstruction: two consecutive `data: ` lines before one
blank-line delimiter reconstruct to a *single* payload equal to the two
fragments joined by `"\n"` (one emission, not two), and the reconstruction
function strips the marker and rejoins with `"\n"`. -/
theorem c7_multiline_reconstruction (a b : Str) (prev : List Message) (q : Str)
    (ha : '\n' ∉ a) (ha2 : '\r' ∉ a) (hb : '\n' ∉ b) (hb2 : '\r' ∉ b) :
    extractData (dataMarker ++ a ++ '\n' :: (dataMarker ++ b)) = a ++ '\n' :: b ∧
    handleSubmitStream prev q [dataMarker ++ a ++ '\n' :: (dataMarker ++ b) ++ ['\n', '\n']] =
      prev ++ [⟨Role.user, q⟩, ⟨Role.assistant, a ++ '\n' :: b⟩] := by
  have hsplit : splitOnChar '\n' (a ++ '\n' :: b) = [a, b] := by
    rw [splitOnChar_append_cons '\n' a b ha, splitOnChar_of_not_mem '\n' b hb]
  have hbody : bodyOf (a ++ '\n' :: b) = dataMarker ++ a ++ '\n' :: (dataMarker ++ b) := by
    unfold bodyOf
    rw [hsplit]
    simp [joinSep, List.append_assoc]
  have hnl : '\n' ∈ a ++ '\n' :: b := List.mem_append.mpr (Or.inr (by simp))
  have hne : a ++ '\n' :: b ≠ doneTok := by
    intro h
    rw [h] at hnl
    revert hnl
    decide
  have hcr : '\r' ∉ a ++ '\n' :: b := by
    intro h
    rcases List.mem_append.mp h with h1 | h1
    · exact ha2 h1
    · rcases List.mem_cons.mp h1 with h2 | h2
      · revert h2; decide
      · exact hb2 h2
  constructor
  · rw [← hbody, extractData_bodyOf]
  · have hev : dataMarker ++ a ++ '\n' :: (dataMarker ++ b) ++ ['\n', '\n'] =
        encodeEvent (a ++ '\n' :: b) := by
      unfold encodeEvent
      rw [hbody]
    rw [hev]
    have h := handleSubmitStream_encode [a ++ '\n' :: b] prev q
      (by intro p hp; rw [List.mem_singleton.mp hp]; exact hne)
      (by intro p hp; rw [List.mem_singleton.mp hp]; exact hcr)
    simpa using h

/-- Witness for C7: `data: Hel` and `data: lo` before one blank line yield the
single payload `"Hel\nlo"`. -/
theorem c7_multiline_reconstruction_witness :
    extractData (dataMarker ++ "Hel".data ++ '\n' :: (dataMarker ++ "lo".data)) =
      "Hel".data ++ '\n' :: "lo".data ∧
    handleSubmitStream [] "Hi".data
        [dataMarker ++ "Hel".data ++ '\n' :: (dataMarker ++ "lo".data) ++ ['\n', '\n']] =
      [⟨Role.user, "Hi".data⟩, ⟨Role.assistant, "Hel".data ++ '\n' :: "lo".data⟩] := by
  have h := c7_multiline_reconstruction "Hel".data "lo".data [] "Hi".data
    (by decide) (by decide) (by decide) (by decide)
  simpa using h

/-- C10 — exact sentinel match: the sentinel test is string equality with
`"[DONE]"`, so a reconstructed payload that strictly contains `"[DONE]"` as a
proper substring is not treated as termination and is appended verbatim to the
assistant content like any other payload. -/
theorem c10_exact_sentinel_match (p : Str) (prev : List Message) (q : Str)
    (hsub : ∃ u v, p = u ++ doneTok ++ v) (hne : p ≠ doneTok)
    (hnl : '\n' ∉ p) (hcr : '\r' ∉ p) :
    isControlToken p = false ∧
    handleSubmitStream prev q [dataMarker ++ p ++ ['\n', '\n']] =
      prev ++ [⟨Role.user, q⟩, ⟨Role.assistant, p⟩] := by
  have hbody : bodyOf p = dataMarker ++ p := by
    unfold bodyOf
    rw [splitOnChar_of_not_mem '\n' p hnl]
    simp [joinSep]
  constructor
  · exact isControlToken_eq_false p hne
  · have hev : dataMarker ++ p ++ ['\n', '\n'] = encodeEvent p := by
      unfold encodeEvent
      rw [hbody]
    rw [hev]
    have h := handleSubmitStream_encode [p] prev q
      (by intro x hx; rw [List.mem_singleton.mp hx]; exact hne)
      (by intro x hx; rw [List.mem_singleton.mp hx]; exact hcr)
    simpa using h

/-- Witness for C10: the payload `"x[DONE]"` strictly contains the sentinel
and is appended verbatim. -/
theorem c10_exact_sentinel_match_witness :
    isControlToken "x[DONE]".data = false ∧
    handleSubmitStream [] "Hi".data [dataMarker ++ "x[DONE]".data ++ ['\n', '\n']] =
      [⟨Role.user, "Hi".data⟩, ⟨Role.assistant, "x[DONE]".data⟩] := by
  have h := c10_exact_sentinel_match "x[DONE]".data [] "Hi".data
    ⟨"x".data, [], by decide⟩ (by decide) (by decide) (by decide)
  simpa using h

/-! ## Helper lemmas for the `useChat` claims -/

theorem guardBlocked_eq_false (st : ChatState) (hIn : trimStr st.input ≠ [])
    (hL : st.isLoading = false) (hAg : st.activeAgentId.isSome = true) :
    guardBlocked st = false := by
  unfold guardBlocked
  rw [decide_eq_false hIn, hL]
  rcases h : st.activeAgentId with _ | a
  · rw [h] at hAg
    simp at hAg
  · simp [h]

theorem scanl_onTokenUpdate_invariant (k real : Str) :
    ∀ (tokens : List Str) (m : List (Str × List Message)), real ≠ k →
    (lookupKey m k).isSome = true → lookupKey m real = none →
    ∀ mp ∈ tokens.scanl (fun mm tok => onTokenUpdate mm k tok) m,
      (lookupKey mp k).isSome = true ∧ lookupKey mp real = none
  | [], m, _, h1, h2, mp, hmp => by
      simp only [List.scanl] at hmp
      rw [List.mem_singleton] at hmp
      subst hmp
      exact ⟨h1, h2⟩
  | tok :: toks, m, hne, h1, h2, mp, hmp => by
      rw [List.scanl_cons] at hmp
      rcases List.mem_cons.mp hmp with rfl | hmp'
      · exact ⟨h1, h2⟩
      · refine scanl_onTokenUpdate_invariant k real toks (onTokenUpdate m k tok) hne ?_ ?_ mp hmp'
        · unfold onTokenUpdate
          rw [lookupKey_setKey_self]
          rfl
        · rw [lookupKey_onTokenUpdate_ne m k tok real hne]
          exact h2

theorem httpErrorMessage_ne_nil (detail : Option Str) (status : Nat) :
    httpErrorMessage detail status ≠ [] := by
  rcases detail with _ | d
  · simp only [httpErrorMessage]
    intro h
    rw [List.append_eq_nil] at h
    exact absurd h.1 (by decide)
  · simp only [httpErrorMessage]
    by_cases hd : d = []
    · rw [if_pos hd]
      intro h
      rw [List.append_eq_nil] at h
      exact absurd h.1 (by decide)
    · rw [if_neg hd]
      exact hd

theorem filter_agents_idem (l : List Agent) (aid : Nat) :
    (l.filter (fun a => decide (a.id ≠ aid))).filter (fun a => decide (a.id ≠ aid)) =
      l.filter (fun a => decide (a.id ≠ aid)) :=
  List.filter_eq_self.mpr (fun a ha => (List.mem_filter.mp ha).2)

/-! ## Claim theorems: the `useChat` exchange state machine -/

/-- C1 — Promotion scenario: for every exchange submitted while
`activeThreadId` is null whose stream completes normally and whose response
carries an `X-Thread-ID` value `t`, the end state has `activeThreadId = t`;
the message map holds under `t` the full list
`[user message with the submitted text, assistant message with the
concatenated payloads]`; no entry remains under the temporary key; the input
is cleared; the loading/streaming flags are false; and the rekeying is one
state transition: in every observable intermediate map from the optimistic
insertion on, the temporary key and `t` are never both absent, and never both
present with different contents. -/
theorem c1_promotion (st : ChatState) (tempName t : Str) (tokens : List Str)
    (refreshed : Option (List Conversation)) (st' : ChatState)
    (hrun : st' = onSubmitModel st tempName tokens (StreamResult.success (some t)) refreshed)
    (hA : st.activeThreadId = none)
    (hIn : trimStr st.input ≠ [])
    (hL : st.isLoading = false)
    (hAg : st.activeAgentId.isSome = true)
    (hT : t ≠ [])
    (hTemp : lookupKey st.messagesByConversation tempName = none)
    (hReal : lookupKey st.messagesByConversation t = none)
    (hNe : tempName ≠ t) :
    st'.activeThreadId = some t ∧
    lookupKey st'.messagesByConversation t =
      some [⟨Role.user, st.input⟩, ⟨Role.assistant, tokens.flatten⟩] ∧
    lookupKey st'.messagesByConversation tempName = none ∧
    st'.input = [] ∧ st'.isLoading = false ∧ st'.isStreaming = false ∧
    ∀ mp ∈ onSubmitMapTrace st tempName tokens (StreamResult.success (some t)),
      ¬(lookupKey mp tempName = none ∧ lookupKey mp t = none) ∧
      ∀ l1 l2, lookupKey mp tempName = some l1 → lookupKey mp t = some l2 → l1 = l2 := by
  have hG : guardBlocked st = false := guardBlocked_eq_false st hIn hL hAg
  have hTne : t ≠ tempName := fun h => hNe h.symm
  subst hrun
  simp only [onSubmitModel, onSubmitMapTrace, hG, Bool.false_eq_true, if_false]
  rw [hA]
  simp only [jsOrKey, strTruthy, hTemp, Option.getD_none, List.nil_append]
  rw [decide_eq_true hT]
  simp only [Bool.not_false, Bool.and_self, if_true, Option.getD_some]
  have hm1 : lookupKey
      (setKey st.messagesByConversation tempName
        [⟨Role.user, st.input⟩, ⟨Role.assistant, []⟩]) tempName =
      some ([⟨Role.user, st.input⟩] ++ [⟨Role.assistant, []⟩]) := by
    rw [lookupKey_setKey_self]
    rfl
  have hm1real : lookupKey
      (setKey st.messagesByConversation tempName
        [⟨Role.user, st.input⟩, ⟨Role.assistant, []⟩]) t =
      none := by
    rw [lookupKey_setKey_ne _ _ _ _ hTne]
    exact hReal
  have hm2 := foldl_onTokenUpdate_self tokens _ tempName
    [⟨Role.user, st.input⟩] [] hm1
  rw [List.nil_append] at hm2
  have hm2real : lookupKey
      (tokens.foldl (fun mm tok => onTokenUpdate mm tempName tok)
        (setKey st.messagesByConversation tempName
          [⟨Role.user, st.input⟩, ⟨Role.assistant, []⟩])) t = none := by
    rw [foldl_onTokenUpdate_ne _ _ _ _ hTne]
    exact hm1real
  refine ⟨trivial, ?_, ?_, trivial, trivial, trivial, ?_⟩
  · rw [lookupKey_eraseKey_ne _ _ _ hTne, lookupKey_setKey_self, hm2]
    rfl
  · rw [lookupKey_eraseKey_self]
  · intro mp hmp
    rcases List.mem_append.mp hmp with hsc | hpr
    · have hinv := scanl_onTokenUpdate_invariant tempName t tokens _ hTne
        (by rw [hm1]; rfl) hm1real mp hsc
      constructor
      · rintro ⟨ha, _⟩
        rw [ha] at hinv
        exact absurd hinv.1 (by simp)
      · intro l1 l2 _ h2
        rw [hinv.2] at h2
        cases h2
    · rw [List.mem_singleton] at hpr
      subst hpr
      constructor
      · rintro ⟨_, hb⟩
        rw [lookupKey_eraseKey_ne _ _ _ hTne, lookupKey_setKey_self] at hb
        cases hb
      · intro l1 l2 h1 _
        rw [lookupKey_eraseKey_self] at h1
        cases h1

/-- Witness for C1: the spec's promotion scenario — submit `"Hi"` with no
active thread, stream `"Hel"`, `"lo"`, response carries `X-Thread-ID:
"abc123"`: the end state is promoted to `"abc123"` with the full message list
and no temporary entry. -/
theorem c1_promotion_witness :
    (onSubmitModel sampleState "temp-1".data ["Hel".data, "lo".data]
        (StreamResult.success (some "abc123".data)) none).activeThreadId =
      some "abc123".data ∧
    lookupKey (onSubmitModel sampleState "temp-1".data ["Hel".data, "lo".data]
        (StreamResult.success (some "abc123".data)) none).messagesByConversation
        "abc123".data =
      some [⟨Role.user, "Hi".data⟩,
            ⟨Role.assistant, (["Hel".data, "lo".data] : List Str).flatten⟩] ∧
    lookupKey (onSubmitModel sampleState "temp-1".data ["Hel".data, "lo".data]
        (StreamResult.success (some "abc123".data)) none).messagesByConversation
        "temp-1".data = none := by
  have h := c1_promotion sampleState "temp-1".data "abc123".data
    ["Hel".data, "lo".data] none _ rfl rfl (by decide) rfl rfl (by decide)
    (by decide) (by decide) (by decide)
  exact ⟨h.1, h.2.1, h.2.2.1⟩

/-- C4 — Abort finalization: for every exchange whose cancellation is observed
(`AbortError`), the literal suffix `"\n\n(Request stopped)"` is appended to
that exchange's assistant message exactly once (the catch branch runs once and
no further tokens are delivered after the abort), all payload content already
appended before the abort is preserved, and no key promotion occurs — the
active thread id and every other key of the message map are unchanged — even
if the response carried a newly assigned thread id (the abort branch never
reads it). -/
theorem c4_abort_finalization (st : ChatState) (tempName : Str) (tokens : List Str)
    (refreshed : Option (List Conversation)) (k : Str) (st' : ChatState)
    (hk : k = jsOrKey st.activeThreadId tempName)
    (hrun : st' = onSubmitModel st tempName tokens StreamResult.aborted refreshed)
    (hG : guardBlocked st = false)
    (hTemp : lookupKey st.messagesByConversation k = none) :
    lookupKey st'.messagesByConversation k =
      some [⟨Role.user, st.input⟩, ⟨Role.assistant, tokens.flatten ++ stopSuffix⟩] ∧
    (∀ j, j ≠ k → lookupKey st'.messagesByConversation j =
      lookupKey st.messagesByConversation j) ∧
    st'.activeThreadId = st.activeThreadId ∧
    st'.agents = st.agents ∧ st'.conversations = st.conversations ∧
    st'.activeAgentId = st.activeAgentId ∧
    st'.isLoading = false ∧ st'.isStreaming = false := by
  subst hrun
  subst hk
  simp only [onSubmitModel, hG, Bool.false_eq_true, if_false]
  rw [hTemp]
  simp only [Option.getD_none, List.nil_append]
  have hm1 : lookupKey
      (setKey st.messagesByConversation (jsOrKey st.activeThreadId tempName)
        [⟨Role.user, st.input⟩, ⟨Role.assistant, []⟩])
      (jsOrKey st.activeThreadId tempName) =
      some ([⟨Role.user, st.input⟩] ++ [⟨Role.assistant, []⟩]) := by
    rw [lookupKey_setKey_self]
    rfl
  have hm2 := foldl_onTokenUpdate_self tokens _ _ [⟨Role.user, st.input⟩] [] hm1
  rw [List.nil_append] at hm2
  refine ⟨?_, ?_, trivial, trivial, trivial, trivial, trivial, trivial⟩
  · rw [lookupKey_setKey_self, hm2]
    simp only [Option.getD_some]
    rw [abortUpdate_snoc]
    rfl
  · intro j hj
    rw [lookupKey_setKey_ne _ _ _ _ hj, foldl_onTokenUpdate_ne _ _ _ _ hj,
      lookupKey_setKey_ne _ _ _ _ hj]

/-- Witness for C4: aborting after the payload `"He"` was delivered appends
the stop marker once, preserving `"He"`, and the state stays unpromoted. -/
theorem c4_abort_finalization_witness :
    lookupKey (onSubmitModel sampleState "temp-1".data ["He".data]
        StreamResult.aborted none).messagesByConversation "temp-1".data =
      some [⟨Role.user, "Hi".data⟩,
            ⟨Role.assistant, (["He".data] : List Str).flatten ++ stopSuffix⟩] ∧
    (onSubmitModel sampleState "temp-1".data ["He".data]
        StreamResult.aborted none).activeThreadId = sampleState.activeThreadId := by
  have h := c4_abort_finalization sampleState "temp-1".data ["He".data] none
    "temp-1".data _ (by decide) rfl (by decide) (by decide)
  exact ⟨h.1, h.2.2.1⟩

/-- C5 (amended) — Error replacement: a non-2xx response makes `streamChat`
throw `new Error(err.detail || "HTTP <status>")`; the exchange fails with a
message equal to the parsed `detail` field when that field is present *and
non-empty* (JavaScript `||` also falls back on an empty string), and to
`"HTTP <status>"` otherwise, and the assistant content for that exchange is
replaced with (not appended) exactly that message. -/
theorem c5_error_replacement (detail : Option Str) (status : Nat) (st : ChatState)
    (tempName : Str) (tokens : List Str) (refreshed : Option (List Conversation))
    (k : Str) (st' : ChatState)
    (hk : k = jsOrKey st.activeThreadId tempName)
    (hrun : st' = onSubmitModel st tempName tokens
      (StreamResult.failed (httpErrorMessage detail status)) refreshed)
    (hG : guardBlocked st = false)
    (hTemp : lookupKey st.messagesByConversation k = none) :
    (∀ d, detail = some d → d ≠ [] → httpErrorMessage detail status = d) ∧
    (detail = none ∨ detail = some [] →
      httpErrorMessage detail status = "HTTP ".data ++ statusStr status) ∧
    lookupKey st'.messagesByConversation k =
      some [⟨Role.user, st.input⟩, ⟨Role.assistant, httpErrorMessage detail status⟩] := by
  subst hrun
  subst hk
  simp only [onSubmitModel, hG, Bool.false_eq_true, if_false]
  rw [hTemp]
  simp only [Option.getD_none, List.nil_append]
  have hm1 : lookupKey
      (setKey st.messagesByConversation (jsOrKey st.activeThreadId tempName)
        [⟨Role.user, st.input⟩, ⟨Role.assistant, []⟩])
      (jsOrKey st.activeThreadId tempName) =
      some ([⟨Role.user, st.input⟩] ++ [⟨Role.assistant, []⟩]) := by
    rw [lookupKey_setKey_self]
    rfl
  have hm2 := foldl_onTokenUpdate_self tokens _ _ [⟨Role.user, st.input⟩] [] hm1
  rw [List.nil_append] at hm2
  refine ⟨?_, ?_, ?_⟩
  · intro d hd hne
    subst hd
    simp only [httpErrorMessage, if_neg hne]
  · intro h
    rcases h with h | h <;> subst h <;> simp [httpErrorMessage]
  · rw [lookupKey_setKey_self, hm2]
    simp only [Option.getD_some]
    unfold jsOrStr
    rw [if_neg (httpErrorMessage_ne_nil detail status)]
    rw [errorUpdate_snoc]
    rfl

/-- Counterexample for C5 as stated: with an HTTP 500 whose JSON body is
`{detail: ""}` the `detail` field *is present*, yet the thrown message — and
the replaced assistant content — is `"HTTP 500"`, not the (empty) detail. -/
theorem c5_empty_detail_counterexample :
    httpErrorMessage (some []) 500 = "HTTP 500".data ∧
    lookupKey (onSubmitModel sampleState "temp-1".data []
        (StreamResult.failed (httpErrorMessage (some []) 500))
        none).messagesByConversation "temp-1".data =
      some [⟨Role.user, "Hi".data⟩, ⟨Role.assistant, "HTTP 500".data⟩] ∧
    "HTTP 500".data ≠ ([] : Str) := by decide

/-- Witness for C5: HTTP 500 with `{detail: "Server error occurred"}` leaves
the assistant content exactly `"Server error occurred"`. -/
theorem c5_error_replacement_witness :
    lookupKey (onSubmitModel sampleState "temp-1".data []
        (StreamResult.failed (httpErrorMessage (some "Server error occurred".data) 500))
        none).messagesByConversation "temp-1".data =
      some [⟨Role.user, "Hi".data⟩,
            ⟨Role.assistant, httpErrorMessage (some "Server error occurred".data) 500⟩] := by
  have h := c5_error_replacement (some "Server error occurred".data) 500 sampleState
    "temp-1".data [] none "temp-1".data _ (by decide) rfl (by decide) (by decide)
  exact h.2.2

/-- C6 — No-op guards: a submission attempted with input that is empty after
trimming, or while an exchange is already in flight (`isLoading`), or with no
active agent selected, leaves the entire state unchanged and issues no
request; the violation is a silent no-op. -/
theorem c6_noop_guards (st : ChatState) (tempName : Str) (tokens : List Str)
    (result : StreamResult) (refreshed : Option (List Conversation))
    (h : trimStr st.input = [] ∨ st.isLoading = true ∨ st.activeAgentId = none) :
    onSubmitModel st tempName tokens result refreshed = st ∧
    onSubmitRequest st = none := by
  have hg : guardBlocked st = true := by
    unfold guardBlocked
    rcases h with h | h | h
    · rw [decide_eq_true h]
      simp
    · rw [h]
      simp
    · rw [h]
      simp
  constructor
  · simp [onSubmitModel, hg]
  · simp [onSubmitRequest, hg]

/-- Witness for C6: whitespace-only input is a silent no-op. -/
theorem c6_noop_guards_witness :
    onSubmitModel { sampleState with input := "   ".data } "t".data ["x".data]
        StreamResult.aborted none = { sampleState with input := "   ".data } ∧
    onSubmitRequest { sampleState with input := "   ".data } = none :=
  c6_noop_guards { sampleState with input := "   ".data } "t".data ["x".data]
    StreamResult.aborted none (Or.inl (by decide))

/-- C8 — Cascade selection: deleting the currently active agent sets the
active agent to the first remaining agent in original list order (the filtered
list preserves order), deleting the only remaining agent sets the active agent
to `null`, and in either case `activeThreadId` is reset to `null`. -/
theorem c8_cascade_selection (st : ChatState) (aid : Nat) (st' : ChatState)
    (hrun : st' = handleDeleteAgent st aid)
    (hactive : st.activeAgentId = some aid) :
    st'.agents = st.agents.filter (fun a => decide (a.id ≠ aid)) ∧
    st'.activeAgentId =
      (st.agents.filter (fun a => decide (a.id ≠ aid))).head?.map (fun a => a.id) ∧
    (st.agents.filter (fun a => decide (a.id ≠ aid)) = [] → st'.activeAgentId = none) ∧
    st'.activeThreadId = none := by
  subst hrun
  simp only [handleDeleteAgent, if_pos hactive]
  refine ⟨?_, ?_, ?_, trivial⟩
  · exact filter_agents_idem st.agents aid
  · rw [filter_agents_idem]
  · intro h
    rw [filter_agents_idem, h]
    rfl

/-- Witness for C8: deleting active agent A from `[A, B, C]` yields active
agent B (first remaining in original order) and a null active thread. -/
theorem c8_cascade_selection_witness :
    (handleDeleteAgent { sampleState with
        agents := [⟨1, "A".data⟩, ⟨2, "B".data⟩, ⟨3, "C".data⟩],
        activeThreadId := some "t1".data } 1).activeAgentId =
      (({ sampleState with
          agents := [⟨1, "A".data⟩, ⟨2, "B".data⟩, ⟨3, "C".data⟩],
          activeThreadId := some "t1".data } : ChatState).agents.filter
        (fun a => decide (a.id ≠ 1))).head?.map (fun a => a.id) ∧
    (handleDeleteAgent { sampleState with
        agents := [⟨1, "A".data⟩, ⟨2, "B".data⟩, ⟨3, "C".data⟩],
        activeThreadId := some "t1".data } 1).activeThreadId = none := by
  have h := c8_cascade_selection { sampleState with
      agents := [⟨1, "A".data⟩, ⟨2, "B".data⟩, ⟨3, "C".data⟩],
      activeThreadId := some "t1".data } 1 _ rfl rfl
  exact ⟨h.2.1, h.2.2.2⟩

/-- C9 (amended) — Error isolation: a terminal transition of an exchange
writing under store key `k` changes no entry of the message map under any key
other than `k` — and, for an exchange that completes with a newly assigned
thread id, other than that new id, whose entry the promotion creates while
deleting `k` — and an aborted or failed exchange additionally leaves the agent
list, the conversation list, and both active pointers untouched: errors
terminate only that exchange. -/
theorem c9_error_isolation (st : ChatState) (tempName : Str) (tokens : List Str)
    (result : StreamResult) (refreshed : Option (List Conversation)) (j : Str)
    (hj1 : j ≠ jsOrKey st.activeThreadId tempName)
    (hj2 : ∀ t, result = StreamResult.success (some t) → j ≠ t) :
    lookupKey (onSubmitModel st tempName tokens result refreshed).messagesByConversation j =
      lookupKey st.messagesByConversation j ∧
    (result = StreamResult.aborted ∨ (∃ msg, result = StreamResult.failed msg) →
      (onSubmitModel st tempName tokens result refreshed).agents = st.agents ∧
      (onSubmitModel st tempName tokens result refreshed).conversations =
        st.conversations ∧
      (onSubmitModel st tempName tokens result refreshed).activeAgentId =
        st.activeAgentId ∧
      (onSubmitModel st tempName tokens result refreshed).activeThreadId =
        st.activeThreadId) := by
  by_cases hg : guardBlocked st = true
  · constructor
    · simp [onSubmitModel, hg]
    · intro _
      simp [onSubmitModel, hg]
  · rw [Bool.not_eq_true] at hg
    cases result with
    | success tid =>
        constructor
        · simp only [onSubmitModel, hg, Bool.false_eq_true, if_false]
          cases tid with
          | none =>
              have hcond : (strTruthy none && !strTruthy st.activeThreadId) = false := by
                simp [strTruthy]
              simp only [hcond, Bool.false_eq_true, if_false]
              rw [foldl_onTokenUpdate_ne _ _ _ _ hj1, lookupKey_setKey_ne _ _ _ _ hj1]
          | some t =>
              have hjt : j ≠ t := hj2 t rfl
              by_cases hp : (strTruthy (some t) && !strTruthy st.activeThreadId) = true
              · rw [if_pos hp]
                simp only [Option.getD_some]
                rw [lookupKey_eraseKey_ne _ _ _ hj1,
                  lookupKey_setKey_ne _ _ _ _ hjt,
                  foldl_onTokenUpdate_ne _ _ _ _ hj1,
                  lookupKey_setKey_ne _ _ _ _ hj1]
              · rw [if_neg hp]
                rw [foldl_onTokenUpdate_ne _ _ _ _ hj1, lookupKey_setKey_ne _ _ _ _ hj1]
        · rintro (h | ⟨msg, h⟩) <;> exact StreamResult.noConfusion h
    | aborted =>
        constructor
        · simp only [onSubmitModel, hg, Bool.false_eq_true, if_false]
          rw [lookupKey_setKey_ne _ _ _ _ hj1, foldl_onTokenUpdate_ne _ _ _ _ hj1,
            lookupKey_setKey_ne _ _ _ _ hj1]
        · intro _
          refine ⟨?_, ?_, ?_, ?_⟩ <;> simp [onSubmitModel, hg]
    | failed msg =>
        constructor
        · simp only [onSubmitModel, hg, Bool.false_eq_true, if_false]
          rw [lookupKey_setKey_ne _ _ _ _ hj1, foldl_onTokenUpdate_ne _ _ _ _ hj1,
            lookupKey_setKey_ne _ _ _ _ hj1]
        · intro _
          refine ⟨?_, ?_, ?_, ?_⟩ <;> simp [onSubmitModel, hg]

/-- Counterexample for C9 as stated: an exchange submitted with no active
thread writes under the temporary key `"temp-1"`, yet on completion with the
newly assigned thread id `"abc"` the promotion creates an entry under the key
`"abc" ≠ "temp-1"` — so an entry under a key other than the exchange's write
key is *not* identical before and after the terminal transition. -/
theorem c9_promotion_new_key_counterexample :
    lookupKey (onSubmitModel sampleState "temp-1".data []
        (StreamResult.success (some "abc".data)) none).messagesByConversation
      "abc".data ≠ lookupKey sampleState.messagesByConversation "abc".data ∧
    "abc".data ≠ jsOrKey sampleState.activeThreadId "temp-1".data := by decide

/-- Witness for C9: an aborted exchange leaves the unrelated entry under
`"other"` untouched. -/
theorem c9_error_isolation_witness :
    lookupKey (onSubmitModel sampleState "temp-1".data ["He".data]
        StreamResult.aborted none).messagesByConversation "other".data =
      lookupKey sampleState.messagesByConversation "other".data :=
  (c9_error_isolation sampleState "temp-1".data ["He".data] StreamResult.aborted
    none "other".data (by decide) (fun t h => StreamResult.noConfusion h)).1
